import Mathlib

/-!
Verification of the r2auto agent loop (`main.py`).

Text is modelled as `List Char` (Python `str`, one element per code point).
Each definition below embeds the corresponding piece of the source:

* `parse_response`   — `R2AutoAgent.parse_response` (the regex
  `(\[\[(.*?)\]\]|<py>(.*?)</py>)` with `re.DOTALL`, scanned by `finditer`,
  is embedded as the left-to-right scanner `scanF`).
* `run_r2_command`   — `R2AutoAgent.run_r2_command`; the r2pipe adapter is an
  opaque function `Str → Except Str Str` (raise or return).
* `run_python_code`  — `R2AutoAgent.run_python_code`; the `exec`/stdout-capture
  outcome is an opaque `PyRes` (captured stdout on success, captured stdout so
  far plus a traceback on a raised exception).
* `consumeFrom`      — the stream-consumption loop of `chat_loop`
  (lines 223-312: `is_thinking` update, `full_content` accumulation and the
  `"[end]" in full_content and not is_thinking` break).
* `runAttempt` / `attemptsLoop` — the retry loop `for attempt in range(3)`
  with the thinking-parameter fallback (lines 190-326); each remote `create`
  call is recorded in a `CallRec` trace carrying whether the request body
  still included the thinking parameter.
* `dispatchDirectives` / `truncateResults` — the action-execution block
  (lines 336-361).
* `chatStep` / `chat_loop` — one iteration of, and the fueled iteration of,
  the `while True` conversation loop (lines 160-386), with the environment
  (remote outcomes, adapter outcomes, script outcomes, user input) passed
  explicitly.
-/

abbrev Str := List Char

/-- Python whitespace characters stripped by `str.strip()` (ASCII range). -/
def isPySpace (c : Char) : Bool :=
  c = ' ' || c = '\t' || c = '\n' || c = '\r' || c = Char.ofNat 11 || c = Char.ofNat 12

/-- Python `str.strip()`: drop whitespace from both ends. -/
def pyStrip (s : Str) : Str :=
  ((s.dropWhile isPySpace).reverse.dropWhile isPySpace).reverse

/-- Python `needle in hay` on strings: substring test. -/
def inStr (needle : Str) : Str → Bool
  | [] => needle.isPrefixOf []
  | c :: rest => needle.isPrefixOf (c :: rest) || inStr needle rest

/-- Split `s` at the first occurrence of `pat`: the part before it and the
part after it (the non-greedy search of the regex engine for a closing token). -/
def splitFirst (pat : Str) : Str → Option (Str × Str)
  | [] => if pat = [] then some ([], []) else none
  | c :: rest =>
    if pat.isPrefixOf (c :: rest) then some ([], (c :: rest).drop pat.length)
    else
      match splitFirst pat rest with
      | some (pre, post) => some (c :: pre, post)
      | none => none

def openBB : Str := "[[".toList
def closeBB : Str := "]]".toList
def openPy : Str := "<py>".toList
def closePy : Str := "</py>".toList
def askLit : Str := "[[ask]]".toList
def endMarker : Str := "[end]".toList

/-- A raw match of the directive regex: group 2 (`\[\[(.*?)\]\]`) or
group 3 (`<py>(.*?)</py>`), with the untrimmed inner text. -/
inductive RawMatch where
  | bb (inner : Str)
  | py (inner : Str)
deriving DecidableEq, Repr

/-- Left-to-right scan of `re.finditer` for
`(\[\[(.*?)\]\]|<py>(.*?)</py>)` with `re.DOTALL`: at each position try
`[[`…`]]` (non-greedy: nearest `]]`), then `<py>`…`</py>`; on a match resume
after it, otherwise advance one character.  `pos` is the source position of
the current suffix and is recorded with each match; `fuel` bounds recursion
and any value ≥ the text length is enough (each step consumes ≥ 1 char). -/
def scanF : Nat → Nat → Str → List (Nat × RawMatch)
  | 0, _, _ => []
  | _ + 1, _, [] => []
  | fuel + 1, pos, '[' :: '[' :: tl =>
    match splitFirst closeBB tl with
    | some (inner, post) =>
      (pos, RawMatch.bb inner) :: scanF fuel (pos + 4 + inner.length) post
    | none => scanF fuel (pos + 1) ('[' :: tl)
  | fuel + 1, pos, '<' :: 'p' :: 'y' :: '>' :: tl =>
    match splitFirst closePy tl with
    | some (inner, post) =>
      (pos, RawMatch.py inner) :: scanF fuel (pos + 4 + inner.length + 5) post
    | none => scanF fuel (pos + 1) ('p' :: 'y' :: '>' :: tl)
  | fuel + 1, pos, _ :: tl => scanF fuel (pos + 1) tl

/-- All matches of the directive pattern of `parse_response` over `text`. -/
def scanMatches (text : Str) : List (Nat × RawMatch) :=
  scanF text.length 0 text

/-- An entry of the `actions` list built by `parse_response`:
`{"type": "r2", ...}` or `{"type": "python", ...}`. -/
inductive Directive where
  | r2 (content : Str)
  | python (content : Str)
deriving DecidableEq, Repr

/-- The loop body of `parse_response` for one match: an empty group is falsy
(no action), an `[[...]]` group is stripped and dropped when it equals
`ask`, a `<py>` group is stripped and kept. -/
def toDirective : RawMatch → Option Directive
  | RawMatch.bb inner =>
    if inner ≠ [] then
      if pyStrip inner ≠ "ask".toList then some (Directive.r2 (pyStrip inner)) else none
    else none
  | RawMatch.py inner =>
    if inner ≠ [] then some (Directive.python (pyStrip inner)) else none

/-- The `for match in matches` loop of `parse_response`. -/
def actionsOf : List RawMatch → List Directive
  | [] => []
  | RawMatch.bb inner :: rest =>
    if inner ≠ [] then
      if pyStrip inner ≠ "ask".toList then
        Directive.r2 (pyStrip inner) :: actionsOf rest
      else actionsOf rest
    else actionsOf rest
  | RawMatch.py inner :: rest =>
    if inner ≠ [] then Directive.python (pyStrip inner) :: actionsOf rest
    else actionsOf rest

/-- `R2AutoAgent.parse_response`: the ordered action list and
`has_ask = "[[ask]]" in text`. -/
def parse_response (text : Str) : List Directive × Bool :=
  (actionsOf ((scanMatches text).map Prod.snd), inStr askLit text)

/-- `R2AutoAgent.run_r2_command`: strip the command, call the adapter with
the stripped text; an empty (falsy) result becomes `"(No Output)"`; a raised
exception becomes `R2 Error executing <quote><cmd><quote>: <e>`. -/
def run_r2_command (adapter : Str → Except Str Str) (cmd : Str) : Str :=
  let cmd' := pyStrip cmd
  match adapter cmd' with
  | Except.ok result => if result.isEmpty then "(No Output)".toList else result
  | Except.error e =>
    "R2 Error executing \u0027".toList ++ cmd' ++ "\u0027: ".toList ++ e

/-- Outcome of `exec`ing a script with stdout redirected to a buffer:
either it finishes with the buffer holding `printed`, or it raises after
writing `printedBefore`, with `tb` the formatted traceback. -/
inductive PyRes where
  | ok (printed : Str)
  | err (printedBefore : Str) (tb : Str)
deriving DecidableEq, Repr

/-- `R2AutoAgent.run_python_code`: on success return the captured stdout
(or a placeholder when it is empty); on an exception return only
`"Python Execution Error:\n"` plus the traceback — the buffer is unread. -/
def run_python_code (outcome : PyRes) : Str :=
  match outcome with
  | PyRes.ok printed =>
    if printed.isEmpty then "(Python executed successfully, no output)".toList
    else printed
  | PyRes.err _printedBefore tb => "Python Execution Error:\n".toList ++ tb

example : parse_response "[[ask]]".toList = ([], true) := by decide

example : parse_response "Run [[aaa]] then [end]".toList
    = ([Directive.r2 "aaa".toList], false) := by decide

example : parse_response "[[ a ]]x<py> code </py>[[ask]][end]".toList
    = ([Directive.r2 "a".toList, Directive.python "code".toList], true) := by decide

example : scanMatches "<py>[[x]]</py>".toList = [(0, RawMatch.py "[[x]]".toList)] := by
  decide

example : run_r2_command (fun _ => Except.ok []) "x".toList = "(No Output)".toList := by
  decide

/-- One stream chunk (`chunk.choices[0].delta`): its answer fragment
(`delta.content or ""`) and its reasoning fragment (the `reasoning_content`
or `reasoning_text` attribute, `or ""`). -/
structure Chunk where
  content : Str
  reasoning : Str
deriving DecidableEq, Repr

/-- The per-chunk `is_thinking` update: a non-empty reasoning fragment sets
it; otherwise (`elif`) a non-empty answer fragment clears it; otherwise it
is unchanged. -/
def stepFlag (think : Bool) (c : Chunk) : Bool :=
  if c.reasoning ≠ [] then true
  else if c.content ≠ [] then false
  else think

/-- The break test `"[end]" in full_content and not is_thinking`. -/
def stopNow (think : Bool) (acc : Str) : Bool :=
  inStr endMarker acc && !think

/-- The `for chunk in stream` loop (lines 223-312): update `is_thinking`,
append the answer fragment to `full_content`, break when the marker is
present and reasoning is not active.  Returns the final `is_thinking`, the
accumulated `full_content`, and whether the loop broke early. -/
def consumeFrom (think : Bool) (acc : Str) : List Chunk → Bool × Str × Bool
  | [] => (think, acc, false)
  | c :: rest =>
    let think' := stepFlag think c
    let acc' := acc ++ c.content
    if stopNow think' acc' then (think', acc', true)
    else consumeFrom think' acc' rest

/-- `is_thinking` after processing a list of chunks. -/
def flagAfter (think : Bool) (l : List Chunk) : Bool :=
  l.foldl stepFlag think

/-- Concatenation of the answer fragments of a list of chunks. -/
def contentOf (l : List Chunk) : Str :=
  (l.map Chunk.content).flatten

/-- The break test as evaluated just after chunk `k` of `cs`, having started
from flag `think` and accumulator `acc`. -/
def stopAt (think : Bool) (acc : Str) (cs : List Chunk) (k : Nat) : Bool :=
  stopNow (flagAfter think (cs.take (k + 1))) (acc ++ contentOf (cs.take (k + 1)))

/-- Outcome of one `create` call, as seen by the retry loop: the call itself
raises with message `msg`; or it returns a stream that raises (timeout etc.)
after yielding `pre`; or it returns a stream that yields `chunks` and ends. -/
inductive CallOutcome where
  | createErr (msg : Str)
  | streamErr (pre : List Chunk)
  | streamOk (chunks : List Chunk)

/-- Record of one issued `create` call: the turn (iteration of the while
loop) it belongs to and whether `req_kwargs` still carried the
`extra_body.thinking` parameter. -/
structure CallRec where
  turn : Nat
  thinking : Bool
deriving DecidableEq, Repr

/-- State threaded through one turn of remote attempts: the global call
counter (indexing into the environment), the trace of issued calls, whether
`extra_body` is still in `req_kwargs`, and `is_thinking`. -/
structure PhaseSt where
  cnt : Nat
  trace : List CallRec
  thinkOn : Bool
  isTh : Bool
deriving DecidableEq, Repr

/-- The fallback test of line 216:
`"thinking" in str(e).lower() or "parameter" in str(e).lower() or "400" in str(e)`. -/
def fallbackTrigger (m : Str) : Bool :=
  inStr "thinking".toList (m.map Char.toLower)
    || inStr "parameter".toList (m.map Char.toLower)
    || inStr "400".toList m

inductive AttemptRes where
  | ok (content : Str)
  | failed
deriving DecidableEq, Repr

/-- One attempt (lines 199-315): issue `create` (recording the call); if it
raises and the message matches the fallback test, pop `extra_body` and issue
`create` once more; consume the stream; any raise inside the attempt makes
it fail.  `full_content` restarts empty, `is_thinking` carries over. -/
def runAttempt (env : Nat → CallOutcome) (turn : Nat) (st : PhaseSt) :
    PhaseSt × AttemptRes :=
  match env st.cnt with
  | CallOutcome.streamOk chunks =>
    let r := consumeFrom st.isTh [] chunks
    ({ st with
        cnt := st.cnt + 1, trace := st.trace ++ [⟨turn, st.thinkOn⟩],
        isTh := r.1 }, AttemptRes.ok r.2.1)
  | CallOutcome.streamErr pre =>
    let r := consumeFrom st.isTh [] pre
    let st' := { st with
        cnt := st.cnt + 1, trace := st.trace ++ [⟨turn, st.thinkOn⟩],
        isTh := r.1 }
    if r.2.2 then (st', AttemptRes.ok r.2.1) else (st', AttemptRes.failed)
  | CallOutcome.createErr m =>
    if fallbackTrigger m then
      match env (st.cnt + 1) with
      | CallOutcome.streamOk chunks =>
        let r := consumeFrom st.isTh [] chunks
        ({ cnt := st.cnt + 2, trace := st.trace ++ [⟨turn, st.thinkOn⟩, ⟨turn, false⟩],
            thinkOn := false, isTh := r.1 }, AttemptRes.ok r.2.1)
      | CallOutcome.streamErr pre =>
        let r := consumeFrom st.isTh [] pre
        let st' : PhaseSt :=
          { cnt := st.cnt + 2, trace := st.trace ++ [⟨turn, st.thinkOn⟩, ⟨turn, false⟩],
              thinkOn := false, isTh := r.1 }
        if r.2.2 then (st', AttemptRes.ok r.2.1) else (st', AttemptRes.failed)
      | CallOutcome.createErr _ =>
        ({ cnt := st.cnt + 2, trace := st.trace ++ [⟨turn, st.thinkOn⟩, ⟨turn, false⟩],
            thinkOn := false, isTh := st.isTh }, AttemptRes.failed)
    else
      ({ st with
          cnt := st.cnt + 1, trace := st.trace ++ [⟨turn, st.thinkOn⟩] },
       AttemptRes.failed)

def maxRetries : Nat := 3

/-- `for attempt in range(max_retries)` (lines 190-322): a successful
attempt breaks with its content; a failed attempt falls to the next one if
any remains (`attempt < max_retries - 1`), else the exception propagates and
the process dies (`None`).  Called with `fuel = maxRetries`. -/
def attemptsLoop (env : Nat → CallOutcome) (turn : Nat) :
    Nat → PhaseSt → PhaseSt × Option Str
  | 0, st => (st, none)
  | fuel + 1, st =>
    match runAttempt env turn st with
    | (st', AttemptRes.ok c) => (st', some c)
    | (st', AttemptRes.failed) =>
      match fuel with
      | 0 => (st', none)
      | f + 1 => attemptsLoop env turn (f + 1) st'

/-- The block appended for an r2 action (line 345):
`f"R2 Command: [[{act_content}]]\nOutput:\n{output}"`. -/
def formatR2Block (content output : Str) : Str :=
  "R2 Command: [[".toList ++ content ++ "]]\nOutput:\n".toList ++ output

/-- The block appended for a python action (line 357):
`f"Python Code Execution:\nOutput:\n{output}"`. -/
def formatPyBlock (output : Str) : Str :=
  "Python Code Execution:\nOutput:\n".toList ++ output

/-- The action-execution loop (lines 336-357).  `r2a i` is the behaviour of
`self.r2.cmd` at the i-th r2 invocation of the process, `pya j` the outcome
of the j-th script execution; both counters are threaded and returned. -/
def dispatchDirectives (r2a : Nat → Str → Except Str Str) (pya : Nat → PyRes) :
    List Directive → Nat → Nat → List Str × Nat × Nat
  | [], r2i, pyi => ([], r2i, pyi)
  | Directive.r2 c :: rest, r2i, pyi =>
    let out := run_r2_command (r2a r2i) c
    let r := dispatchDirectives r2a pya rest (r2i + 1) pyi
    (formatR2Block c out :: r.1, r.2)
  | Directive.python _c :: rest, r2i, pyi =>
    let out := run_python_code (pya pyi)
    let r := dispatchDirectives r2a pya rest r2i (pyi + 1)
    (formatPyBlock out :: r.1, r.2)

/-- Number of r2 directives in a list. -/
def countR2 (l : List Directive) : Nat :=
  l.countP fun a => match a with | Directive.r2 _ => true | _ => false

/-- Number of python directives in a list. -/
def countPy (l : List Directive) : Nat :=
  l.countP fun a => match a with | Directive.python _ => true | _ => false

/-- `"\n".join(execution_results)` (line 359). -/
def joinNL (blocks : List Str) : Str :=
  List.intercalate "\n".toList blocks

def truncMarker : Str := "\n... [Output Truncated] ...".toList

/-- Lines 360-361: cap the joined results at 30000 characters, appending the
truncation marker when over the cap. -/
def truncateResults (s : Str) : Str :=
  if 30000 < s.length then s.take 30000 ++ truncMarker else s

example : consumeFrom false [] [⟨"a".toList, "r".toList⟩, ⟨"b[end]".toList, []⟩]
    = (false, "ab[end]".toList, true) := by decide

example : consumeFrom false [] [⟨"x[end]".toList, "r".toList⟩, ⟨"y".toList, []⟩]
    = (false, "x[end]y".toList, true) := by decide

example : fallbackTrigger "Unknown PARAMETER".toList = true := by decide

example : fallbackTrigger "boom".toList = false := by decide

/-- The fixed system instruction of `_get_system_prompt` (verbatim). -/
def sysPromptText : Str := "
You are an expert Reverse Engineering Agent named 'r2auto'. You are operating inside a Radare2 environment via r2pipe.
Your goal is to analyze the binary provided based on the user's request.

**Capabilities:**
1. **Execute R2 Commands**: Wrap standard r2 commands in double brackets. 
   - Syntax: `[[cmd]]`
   - Example: `[[aaa]]`, `[[pdf @ main]]`, `[[iI]]`

2. **Execute Python Code**: You can write Python scripts to process data or handle complex logic.
   - Syntax: Wrap code in `<py>` and `</py>` tags.
   - **Context**: The variable `r2` is available (r2pipe instance). Use `r2.cmd('cmd')` to run commands inside Python.
   - Example: 
     <py>
     funcs = r2.cmd('afl').splitlines()
     print(f\"Found {len(funcs)} functions\")
     </py>

**Protocol:**
1. **Think**: Analyze the current state.
2. **Execute**: Output r2 commands or Python blocks. You can mix them. They will be executed in order.
3. **Wait**: After outputting commands, stop your response. The system will execute them and give you the output.
4. **Interact**: If you need the user's input, clarification, or confirmation to proceed, output `[[ask]]` at the end.
5. **Format**: Use Markdown for your explanations. Be concise but professional.

**Important:**
- respond [end] after you finish your all command and python code calls.
- Use `pdf~HEAD` for large functions to avoid huge output.
- Only use Python when r2 commands alone are insufficient for data parsing or logic.
- Rely solely on tool outputs.
".toList

/-- One role-tagged message of `self.history`. -/
structure Turn where
  role : Str
  content : Str
deriving DecidableEq, Repr

/-- Controller state across iterations of the `while True` loop: the
history, the global `create`-call counter and trace, the r2 / python / user
input counters (indexing the environment), and the iteration number. -/
structure LoopSt where
  history : List Turn
  cnt : Nat
  trace : List CallRec
  r2i : Nat
  pyi : Nat
  uidx : Nat
  turnNo : Nat
deriving Repr

/-- The external world of one run: outcome of the i-th `create` call,
behaviour of `r2.cmd` at its i-th invocation, outcome of the i-th script
execution, and the i-th line typed by the user. -/
structure Env where
  call : Nat → CallOutcome
  r2a : Nat → Str → Except Str Str
  pya : Nat → PyRes
  userIn : Nat → Str

/-- `user_input.lower() in ['exit', 'quit', 'q']`. -/
def isExitWord (s : Str) : Bool :=
  let l := s.map Char.toLower
  l = "exit".toList || l = "quit".toList || l = "q".toList

/-- Result of one iteration of the `while True` loop: continue looping,
break out (exit word), or die (`sys.exit(1)` after exhausted retries). -/
inductive StepOut where
  | cont (st : LoopSt)
  | halt (st : LoopSt)
  | fatal (st : LoopSt)

/-- The state carried by a `StepOut`. -/
def stepOutSt : StepOut → LoopSt
  | StepOut.cont st => st
  | StepOut.halt st => st
  | StepOut.fatal st => st

/-- The blocking user prompt of lines 372-378 and 381-386 (the `[[ask]]`
branch and the idle branch perform the same state changes): an exit word
breaks the loop, anything else is appended as a user Turn. -/
def promptBranch (env : Env) (st : LoopSt) : StepOut :=
  let inp := env.userIn st.uidx
  let st' := { st with uidx := st.uidx + 1 }
  if isExitWord inp then StepOut.halt st'
  else StepOut.cont { st' with history := st'.history ++ [⟨"user".toList, inp⟩] }

/-- One iteration of the `while True` loop (lines 160-386): rebuild
`req_kwargs` with the thinking parameter enabled, run the retry loop
(`is_thinking` reset to `False`, line 180), append the assistant Turn, parse
it, dispatch directives and append the combined results as a user Turn, then
continue / prompt as has_ask and the action list dictate. -/
def chatStep (env : Env) (st : LoopSt) : StepOut :=
  match attemptsLoop env.call st.turnNo maxRetries ⟨st.cnt, st.trace, true, false⟩ with
  | (pst, none) => StepOut.fatal { st with cnt := pst.cnt, trace := pst.trace }
  | (pst, some content) =>
    let st1 := { st with
        cnt := pst.cnt, trace := pst.trace, turnNo := st.turnNo + 1,
        history := st.history ++ [⟨"assistant".toList, content⟩] }
    let pr := parse_response content
    if pr.1 ≠ [] then
      let d := dispatchDirectives env.r2a env.pya pr.1 st1.r2i st1.pyi
      let rt := truncateResults (joinNL d.1)
      let st2 := { st1 with
          r2i := d.2.1, pyi := d.2.2,
          history := st1.history ++
            [⟨"user".toList, "Execution Results:\n".toList ++ rt⟩] }
      if !pr.2 then StepOut.cont st2 else promptBranch env st2
    else promptBranch env st1

/-- The `while True` loop itself, bounded by `fuel` iterations (the claims
quantify over any finite number of turns). -/
def chat_loop (env : Env) : Nat → LoopSt → LoopSt
  | 0, st => st
  | n + 1, st =>
    match chatStep env st with
    | StepOut.cont st' => chat_loop env n st'
    | StepOut.halt st' => st'
    | StepOut.fatal st' => st'

/-- The two seed Turns of `chat_loop` (lines 153-156). -/
def initHistory (tf p : Str) : List Turn :=
  [⟨"system".toList, sysPromptText⟩,
   ⟨"user".toList, "Target: ".toList ++ tf ++ "\nRequest: ".toList ++ p⟩]

/-- Initial controller state for target file `tf` and initial prompt `p`. -/
def initState (tf p : Str) : LoopSt :=
  { history := initHistory tf p, cnt := 0, trace := [], r2i := 0, pyi := 0,
    uidx := 0, turnNo := 0 }

/-- The full source span of a raw match (what `finditer` consumed). -/
def matchText : RawMatch → Str
  | RawMatch.bb inner => openBB ++ inner ++ closeBB
  | RawMatch.py inner => openPy ++ inner ++ closePy

/-- Follows the words of claim C5: the reasoning-active flag is "true when
the most recent non-empty fragment was a reasoning fragment, false once an
answer fragment arrives" — so a chunk that carries an answer fragment
clears the flag even when it also carries a reasoning fragment.  To be
compared with the flag update of the source (`stepFlag`). -/
def claimStepFlag (think : Bool) (c : Chunk) : Bool :=
  if c.content ≠ [] then false
  else if c.reasoning ≠ [] then true
  else think

/-- Consumption loop as claim C5 reads: same accumulation and stop test as
`consumeFrom`, but with the flag update `claimStepFlag`. -/
def claimConsume (think : Bool) (acc : Str) : List Chunk → Bool × Str × Bool
  | [] => (think, acc, false)
  | c :: rest =>
    let think' := claimStepFlag think c
    let acc' := acc ++ c.content
    if stopNow think' acc' then (think', acc', true)
    else claimConsume think' acc' rest

/-- Concrete environment refuting the permanence part of claim C1: the
first `create` call is rejected with an unsupported-parameter message, the
fallback call succeeds with one directive and the end marker, and the next
turn streams a directive-free reply. -/
def c1CexEnv : Env :=
  { call := fun i =>
      if i = 0 then CallOutcome.createErr "unsupported parameter".toList
      else if i = 1 then CallOutcome.streamOk [⟨"[[aaa]][end]".toList, []⟩]
      else CallOutcome.streamOk [⟨"x[end]".toList, []⟩],
    r2a := fun _ _ => Except.ok "done".toList,
    pya := fun _ => PyRes.ok "p".toList,
    userIn := fun _ => "q".toList }

/-- Claim C3, counterexample to the dichotomy "raw textual output unchanged
or error string on raise": an adapter that returns the empty string does not
raise, yet the dispatcher returns the placeholder `(No Output)`, which is
not the raw output. -/
theorem c3_counterexample :
    run_r2_command (fun _ => Except.ok []) "x".toList = "(No Output)".toList
      ∧ run_r2_command (fun _ => Except.ok []) "x".toList ≠ [] := by
  decide

/-- Claim C3 (amended): dispatching a ToolCommand never raises (it is a
total function into text) and sends the trimmed command text to the
adapter; the result is the raw adapter output when that is non-empty, the
placeholder `(No Output)` when it is empty, and on an adapter exception an
error string naming the (trimmed) failing command. -/
theorem c3_adapter_result (a1 a2 : Str → Except Str Str) (cmd out e : Str)
    (h1 : a1 (pyStrip cmd) = Except.ok out)
    (h2 : a2 (pyStrip cmd) = Except.error e) :
    run_r2_command a1 cmd = (if out.isEmpty then "(No Output)".toList else out)
      ∧ run_r2_command a2 cmd
        = "R2 Error executing '".toList ++ pyStrip cmd ++ "': ".toList ++ e := by
  constructor <;> simp [run_r2_command, h1, h2]

/-- Witness for `c3_adapter_result` at concrete adapters and command. -/
theorem c3_witness :
    run_r2_command (fun _ => Except.ok "hi".toList) " aaa ".toList
        = (if ("hi".toList).isEmpty then "(No Output)".toList else "hi".toList)
      ∧ run_r2_command (fun _ => Except.error "bad".toList) " aaa ".toList
        = "R2 Error executing '".toList ++ pyStrip " aaa ".toList
            ++ "': ".toList ++ "bad".toList :=
  c3_adapter_result (fun _ => Except.ok "hi".toList)
    (fun _ => Except.error "bad".toList) " aaa ".toList "hi".toList "bad".toList
    rfl rfl

/-- Claim C7: a joined ExecutionResults text longer than 30000 characters
is cut to exactly its first 30000 characters with the truncation marker
appended; a text of at most 30000 characters is passed through unchanged. -/
theorem c7_truncation (s t : Str) (h1 : 30000 < s.length)
    (h2 : t.length ≤ 30000) :
    truncateResults s = s.take 30000 ++ truncMarker
      ∧ (truncateResults s).length = 30000 + truncMarker.length
      ∧ truncateResults t = t := by
  refine ⟨?_, ?_, ?_⟩
  · simp [truncateResults, if_pos h1]
  · simp only [truncateResults, if_pos h1, List.length_append, List.length_take]
    omega
  · simp [truncateResults]
    omega

/-- Witness for `c7_truncation` at a 30001-character text and a short one. -/
theorem c7_witness :
    truncateResults (List.replicate 30001 'a')
        = (List.replicate 30001 'a').take 30000 ++ truncMarker
      ∧ (truncateResults (List.replicate 30001 'a')).length
        = 30000 + truncMarker.length
      ∧ truncateResults "ab".toList = "ab".toList :=
  c7_truncation (List.replicate 30001 'a') "ab".toList
    (by rw [List.length_replicate]; omega) (by decide)

/-- Claim C10: when the script raises, `run_python_code` returns only the
label `Python Execution Error:` plus the traceback; the text printed before
the fault is discarded — the returned output, and the ExecutionResult block
built from it, are independent of it. -/
theorem c10_script_error (p p' tb : Str) :
    run_python_code (PyRes.err p tb) = "Python Execution Error:\n".toList ++ tb
      ∧ run_python_code (PyRes.err p tb) = run_python_code (PyRes.err p' tb)
      ∧ formatPyBlock (run_python_code (PyRes.err p tb))
        = formatPyBlock (run_python_code (PyRes.err p' tb)) := by
  simp [run_python_code]

/-- `inStr` decides the sublist-infix relation (Python `in` on strings). -/
theorem inStr_iff (needle hay : Str) : inStr needle hay = true ↔ needle <:+: hay := by
  induction hay with
  | nil =>
    simp [inStr, List.isPrefixOf_iff_prefix, List.prefix_nil, List.infix_nil]
  | cons c rest ih =>
    simp [inStr, List.isPrefixOf_iff_prefix, ih, List.infix_cons_iff]

/-- `splitFirst` decomposes its input around the pattern. -/
theorem splitFirst_eq (pat : Str) :
    ∀ s pre post : Str, splitFirst pat s = some (pre, post) →
      s = pre ++ pat ++ post := by
  intro s
  induction s with
  | nil =>
    intro pre post h
    by_cases hp : pat = ([] : Str) <;> simp [splitFirst, hp] at h
    simp [hp, h.1, h.2]
  | cons c rest ih =>
    intro pre post h
    by_cases hp : pat.isPrefixOf (c :: rest)
    · simp [splitFirst, hp] at h
      obtain ⟨t, ht⟩ := List.isPrefixOf_iff_prefix.1 hp
      rw [h.1, ← h.2, ← ht, List.drop_left]
      simp
    · simp only [splitFirst, hp, Bool.false_eq_true, if_false] at h
      cases hr : splitFirst pat rest with
      | none => rw [hr] at h; exact absurd h (by simp)
      | some pr =>
        rw [hr] at h
        cases pr with
        | mk pre' post' =>
          simp at h
          rw [← h.1, ← h.2]
          simp [ih pre' post' hr]

/-- Every match reported by the scanner occurs (with its delimiters) as a
substring of the scanned text. -/
theorem scanF_sound :
    ∀ fuel pos (s : Str) q m, (q, m) ∈ scanF fuel pos s → matchText m <:+: s := by
  intro fuel pos s
  induction fuel, pos, s using scanF.induct with
  | case1 x s => simp [scanF]
  | case2 n x => simp [scanF]
  | case3 fuel pos tl pre post hsplit ih =>
    intro q m hm
    simp only [scanF, hsplit] at hm
    rcases List.mem_cons.1 hm with he | ht
    · simp only [Prod.mk.injEq] at he
      obtain ⟨hq, hb⟩ := he
      subst hb
      refine ⟨[], post, ?_⟩
      simp [matchText, openBB, closeBB]
      have := splitFirst_eq closeBB tl pre post hsplit
      rw [this]
      simp [closeBB]
    · have hpost : matchText m <:+: post := ih q m ht
      have h1 : post <:+: tl := by
        rw [splitFirst_eq closeBB tl pre post hsplit]
        exact (List.suffix_append _ _).isInfix
      have h2 : tl <:+: '[' :: '[' :: tl :=
        ((List.suffix_cons _ _).trans (List.suffix_cons _ _)).isInfix
      exact (hpost.trans h1).trans h2
  | case4 fuel pos tl hsplit ih =>
    intro q m hm
    simp only [scanF, hsplit] at hm
    exact (ih q m hm).trans (List.suffix_cons _ _).isInfix
  | case5 fuel pos tl pre post hsplit ih =>
    intro q m hm
    simp only [scanF, hsplit] at hm
    rcases List.mem_cons.1 hm with he | ht
    · simp only [Prod.mk.injEq] at he
      obtain ⟨hq, hb⟩ := he
      subst hb
      refine ⟨[], post, ?_⟩
      simp [matchText, openPy, closePy]
      have := splitFirst_eq closePy tl pre post hsplit
      rw [this]
      simp [closePy]
    · have hpost : matchText m <:+: post := ih q m ht
      have h1 : post <:+: tl := by
        rw [splitFirst_eq closePy tl pre post hsplit]
        exact (List.suffix_append _ _).isInfix
      have h2 : tl <:+: '<' :: 'p' :: 'y' :: '>' :: tl := by
        refine List.IsSuffix.isInfix ?_
        exact (List.suffix_cons _ _).trans
          ((List.suffix_cons _ _).trans
            ((List.suffix_cons _ _).trans (List.suffix_cons _ _)))
      exact (hpost.trans h1).trans h2
  | case6 fuel pos tl hsplit ih =>
    intro q m hm
    simp only [scanF, hsplit] at hm
    have h2 : ('p' :: 'y' :: '>' :: tl) <:+: '<' :: 'p' :: 'y' :: '>' :: tl :=
      (List.suffix_cons _ _).isInfix
    exact (ih q m hm).trans h2
  | case7 fuel pos hd tl hne1 hne2 ih =>
    intro q m hm
    rw [scanF.eq_5 pos fuel hd tl hne1 hne2] at hm
    exact (ih q m hm).trans (List.suffix_cons _ _).isInfix

/-- Every match position reported by the scanner is at or after the start
position of the scan. -/
theorem scanF_pos :
    ∀ fuel pos (s : Str) q m, (q, m) ∈ scanF fuel pos s → pos ≤ q := by
  intro fuel pos s
  induction fuel, pos, s using scanF.induct with
  | case1 x s => simp [scanF]
  | case2 n x => simp [scanF]
  | case3 fuel pos tl pre post hsplit ih =>
    intro q m hm
    simp only [scanF, hsplit] at hm
    rcases List.mem_cons.1 hm with he | ht
    · simp only [Prod.mk.injEq] at he
      omega
    · have := ih q m ht; omega
  | case4 fuel pos tl hsplit ih =>
    intro q m hm
    simp only [scanF, hsplit] at hm
    have := ih q m hm; omega
  | case5 fuel pos tl pre post hsplit ih =>
    intro q m hm
    simp only [scanF, hsplit] at hm
    rcases List.mem_cons.1 hm with he | ht
    · simp only [Prod.mk.injEq] at he
      omega
    · have := ih q m ht; omega
  | case6 fuel pos tl hsplit ih =>
    intro q m hm
    simp only [scanF, hsplit] at hm
    have := ih q m hm; omega
  | case7 fuel pos hd tl hne1 hne2 ih =>
    intro q m hm
    rw [scanF.eq_5 pos fuel hd tl hne1 hne2] at hm
    have := ih q m hm; omega

/-- The positions of the matches reported by the scanner are strictly
increasing. -/
theorem scanF_chain :
    ∀ fuel pos (s : Str),
      List.Chain' (fun a b : Nat × RawMatch => a.1 < b.1) (scanF fuel pos s) := by
  intro fuel pos s
  induction fuel, pos, s using scanF.induct with
  | case1 x s => simp [scanF]
  | case2 n x => simp [scanF]
  | case3 fuel pos tl pre post hsplit ih =>
    simp only [scanF, hsplit]
    refine List.chain'_cons'.2 ⟨?_, ih⟩
    intro y hy
    have hmem : y ∈ scanF fuel (pos + 4 + pre.length) post :=
      List.mem_of_mem_head? hy
    have hp := scanF_pos fuel (pos + 4 + pre.length) post y.1 y.2
      (by simpa using hmem)
    simp only
    omega
  | case4 fuel pos tl hsplit ih =>
    simp only [scanF, hsplit]
    exact ih
  | case5 fuel pos tl pre post hsplit ih =>
    simp only [scanF, hsplit]
    refine List.chain'_cons'.2 ⟨?_, ih⟩
    intro y hy
    have hmem : y ∈ scanF fuel (pos + 4 + pre.length + 5) post :=
      List.mem_of_mem_head? hy
    have hp := scanF_pos fuel (pos + 4 + pre.length + 5) post y.1 y.2
      (by simpa using hmem)
    simp only
    omega
  | case6 fuel pos tl hsplit ih =>
    simp only [scanF, hsplit]
    exact ih
  | case7 fuel pos hd tl hne1 hne2 ih =>
    rw [scanF.eq_5 pos fuel hd tl hne1 hne2]
    exact ih

/-- The action loop of `parse_response` is the per-match `filterMap`. -/
theorem actionsOf_eq : ∀ ms : List RawMatch, actionsOf ms = ms.filterMap toDirective := by
  intro ms
  induction ms with
  | nil => rfl
  | cons m rest ih =>
    cases m with
    | bb inner =>
      by_cases h1 : inner = ([] : Str)
      · simp [actionsOf, toDirective, h1, ih]
      · by_cases h2 : pyStrip inner = ['a', 's', 'k']
        · simp [actionsOf, toDirective, h1, h2, ih]
        · simp [actionsOf, toDirective, h1, h2, ih]
    | py inner =>
      by_cases h1 : inner = ([] : Str)
      · simp [actionsOf, toDirective, h1, ih]
      · simp [actionsOf, toDirective, h1, ih]

/-- Claim C2: a double-bracket match whose inner text is exactly the
reserved word `ask` is not added as a Directive — its per-match action is
`none`, and the returned directive list is exactly the per-match
`filterMap`, so the match contributes nothing — while its presence forces
AskFlag to be true; in particular the text `[[ask]]` parses to zero
directives with AskFlag = true. -/
theorem c2_reserved_ask (text : Str) (p : Nat)
    (h : (p, RawMatch.bb "ask".toList) ∈ scanMatches text) :
    toDirective (RawMatch.bb "ask".toList) = none
      ∧ (parse_response text).1
        = ((scanMatches text).map Prod.snd).filterMap toDirective
      ∧ (parse_response text).2 = true
      ∧ parse_response "[[ask]]".toList = ([], true) := by
  refine ⟨by decide, actionsOf_eq _, ?_, by decide⟩
  have h' : (p, RawMatch.bb "ask".toList) ∈ scanF text.length 0 text := h
  have hinf : matchText (RawMatch.bb "ask".toList) <:+: text :=
    scanF_sound text.length 0 text p _ h'
  have heq : matchText (RawMatch.bb "ask".toList) = askLit := by decide
  show inStr askLit text = true
  exact (inStr_iff _ _).2 (heq ▸ hinf)

/-- Witness for `c2_reserved_ask` at the text `[[ask]]` itself. -/
theorem c2_witness :
    (parse_response "[[ask]]".toList).2 = true
      ∧ parse_response "[[ask]]".toList = ([], true) :=
  ⟨(c2_reserved_ask "[[ask]]".toList 0 (by decide)).2.2.1,
   (c2_reserved_ask "[[ask]]".toList 0 (by decide)).2.2.2⟩

/-- Claim C8: matches are reported at strictly increasing source positions;
the directive list of `parse_response` is the in-order `filterMap` of that
match list, so directives of both kinds appear in left-to-right source
order; and parsing is a function of the finalized text alone — equal texts
yield identical results. -/
theorem c8_order :
    (∀ fuel pos (s : Str),
        List.Chain' (fun a b : Nat × RawMatch => a.1 < b.1) (scanF fuel pos s))
      ∧ (∀ t : Str, (parse_response t).1
          = ((scanMatches t).map Prod.snd).filterMap toDirective)
      ∧ (∀ t₁ t₂ : Str, t₁ = t₂ → parse_response t₁ = parse_response t₂) :=
  ⟨scanF_chain, fun _ => actionsOf_eq _, fun _ _ h => h ▸ rfl⟩

/-- Witness for `c8_order` at a concrete mixed-kind text. -/
theorem c8_witness :
    List.Chain' (fun a b : Nat × RawMatch => a.1 < b.1)
        (scanF ("[[a]]<py>b</py>".toList).length 0 "[[a]]<py>b</py>".toList)
      ∧ parse_response "[[a]]<py>b</py>".toList
        = parse_response "[[a]]<py>b</py>".toList :=
  ⟨c8_order.1 _ _ _, c8_order.2.2 _ _ rfl⟩

/-- The break test after the first chunk. -/
theorem stopAt_zero (think : Bool) (acc : Str) (c : Chunk) (rest : List Chunk) :
    stopAt think acc (c :: rest) 0 = stopNow (stepFlag think c) (acc ++ c.content) := by
  simp [stopAt, flagAfter, contentOf]

/-- Shifting the break test across the first chunk. -/
theorem stopAt_succ (think : Bool) (acc : Str) (c : Chunk) (rest : List Chunk)
    (m : Nat) :
    stopAt think acc (c :: rest) (m + 1)
      = stopAt (stepFlag think c) (acc ++ c.content) rest m := by
  simp [stopAt, flagAfter, contentOf, List.take_succ_cons, List.append_assoc]

/-- Claim C5 (amended): the stream loop stops early exactly at the first
chunk after which the accumulated answer contains `[end]` and the
reasoning-active flag is false — where a chunk carrying a non-empty
reasoning fragment sets the flag even when it also carries an answer
fragment (the `elif`), a chunk carrying only an answer fragment clears it,
and a chunk carrying neither leaves it unchanged; the accumulated answer is
returned as-is, with the `[end]` marker still contained in it whenever the
stop was marker-triggered. -/
theorem c5_stop_exact (think : Bool) (acc : Str) (cs : List Chunk) :
    ((consumeFrom think acc cs).2.2 = true →
      ∃ n, n < cs.length ∧ stopAt think acc cs n = true
        ∧ (∀ m, m < n → stopAt think acc cs m = false)
        ∧ (consumeFrom think acc cs).2.1 = acc ++ contentOf (cs.take (n + 1))
        ∧ inStr endMarker (consumeFrom think acc cs).2.1 = true)
      ∧ ((consumeFrom think acc cs).2.2 = false →
        (consumeFrom think acc cs).2.1 = acc ++ contentOf cs
          ∧ ∀ m, m < cs.length → stopAt think acc cs m = false) := by
  induction cs generalizing think acc with
  | nil =>
    refine ⟨fun h => ?_, fun _ => ?_⟩
    · simp [consumeFrom] at h
    · simp [consumeFrom, contentOf]
  | cons c rest ih =>
    cases hstop : stopNow (stepFlag think c) (acc ++ c.content) with
    | true =>
      refine ⟨fun _ => ?_, fun h => ?_⟩
      · have hstop' := hstop
        simp only [stopNow, Bool.and_eq_true] at hstop'
        refine ⟨0, by simp, ?_, fun m hm => absurd hm (by omega), ?_, ?_⟩
        · rw [stopAt_zero]; exact hstop
        · simp [consumeFrom, hstop, contentOf]
        · simp only [consumeFrom, hstop, if_true]
          exact hstop'.1
      · simp [consumeFrom, hstop] at h
    | false =>
      have heq : consumeFrom think acc (c :: rest)
          = consumeFrom (stepFlag think c) (acc ++ c.content) rest := by
        simp [consumeFrom, hstop]
      have hrec := ih (stepFlag think c) (acc ++ c.content)
      refine ⟨fun h => ?_, fun h => ?_⟩
      · rw [heq] at h ⊢
        obtain ⟨n, hlen, hsn, hprev, hcont, hmark⟩ := hrec.1 h
        refine ⟨n + 1, by simp; omega, ?_, ?_, ?_, hmark⟩
        · rw [stopAt_succ]; exact hsn
        · intro m hm
          cases m with
          | zero => rw [stopAt_zero]; exact hstop
          | succ m2 => rw [stopAt_succ]; exact hprev m2 (by omega)
        · rw [hcont]
          simp [contentOf, List.take_succ_cons, List.append_assoc]
      · rw [heq] at h ⊢
        obtain ⟨hcont, hprev⟩ := hrec.2 h
        refine ⟨?_, ?_⟩
        · rw [hcont]; simp [contentOf, List.append_assoc]
        · intro m hm
          cases m with
          | zero => rw [stopAt_zero]; exact hstop
          | succ m2 => rw [stopAt_succ]; exact hprev m2 (by simp at hm; omega)

/-- Claim C5 counterexample: on a chunk carrying both a reasoning fragment
and an answer fragment the source keeps reasoning active (the `elif` gives
the reasoning fragment precedence), while the claim reads the flag as
"false once an answer fragment arrives".  On the stream below the claim
reading stops after the first chunk, returning `x[end]`, but the code
continues and returns `x[end]y`. -/
theorem c5_counterexample :
    (consumeFrom false []
        [⟨"x[end]".toList, "r".toList⟩, ⟨"y".toList, []⟩]).2.1 = "x[end]y".toList
      ∧ (claimConsume false []
        [⟨"x[end]".toList, "r".toList⟩, ⟨"y".toList, []⟩]).2.1 = "x[end]".toList
      ∧ (consumeFrom false []
          [⟨"x[end]".toList, "r".toList⟩, ⟨"y".toList, []⟩]).2.1
        ≠ (claimConsume false []
          [⟨"x[end]".toList, "r".toList⟩, ⟨"y".toList, []⟩]).2.1 := by
  decide

/-- Witness for `c5_stop_exact` on a concrete two-chunk stream. -/
theorem c5_witness :
    ∃ n, n < ([⟨"a".toList, "r".toList⟩, ⟨"b[end]".toList, []⟩] : List Chunk).length
      ∧ stopAt false [] [⟨"a".toList, "r".toList⟩, ⟨"b[end]".toList, []⟩] n = true
      ∧ (∀ m, m < n →
          stopAt false [] [⟨"a".toList, "r".toList⟩, ⟨"b[end]".toList, []⟩] m = false)
      ∧ (consumeFrom false []
          [⟨"a".toList, "r".toList⟩, ⟨"b[end]".toList, []⟩]).2.1
        = [] ++ contentOf
            (([⟨"a".toList, "r".toList⟩, ⟨"b[end]".toList, []⟩] : List Chunk).take (n + 1))
      ∧ inStr endMarker (consumeFrom false []
          [⟨"a".toList, "r".toList⟩, ⟨"b[end]".toList, []⟩]).2.1 = true :=
  (c5_stop_exact false [] [⟨"a".toList, "r".toList⟩, ⟨"b[end]".toList, []⟩]).1
    (by decide)

/-- Claim C4 counterexample: a ScriptCode block does not repeat the
directive text — it is only the kind label and the output text, so the
ExecutionResult block for the script `print(42)` does not contain the
script code anywhere. -/
theorem c4_counterexample :
    (dispatchDirectives (fun _ _ => Except.ok "done".toList)
        (fun _ => PyRes.ok "ok".toList) [Directive.python "print(42)".toList] 0 0).1
      = ["Python Code Execution:\nOutput:\nok".toList]
      ∧ inStr "print(42)".toList
          "Python Code Execution:\nOutput:\nok".toList = false := by
  decide

/-- Claim C4 (amended): one block per directive, in execution order; the
k-th block is built from the k-th directive with the executor invocation
counter advanced past the earlier directives of the same kind.  A
ToolCommand block is `R2 Command: [[<text>]]\nOutput:\n<output>` — it
repeats the stripped directive text inside re-added double brackets — while
a ScriptCode block is `Python Code Execution:\nOutput:\n<output>` and does
not repeat the directive text. -/
theorem c4_blocks (r2a : Nat → Str → Except Str Str) (pya : Nat → PyRes)
    (acts : List Directive) (r2i pyi k : Nat) (c : Str) :
    ((dispatchDirectives r2a pya acts r2i pyi).1).length = acts.length
      ∧ (acts[k]? = some (Directive.r2 c) →
          ((dispatchDirectives r2a pya acts r2i pyi).1)[k]?
            = some (formatR2Block c
                (run_r2_command (r2a (r2i + countR2 (acts.take k))) c)))
      ∧ (acts[k]? = some (Directive.python c) →
          ((dispatchDirectives r2a pya acts r2i pyi).1)[k]?
            = some (formatPyBlock
                (run_python_code (pya (pyi + countPy (acts.take k)))))) := by
  induction acts generalizing r2i pyi k with
  | nil => exact ⟨rfl, by simp, by simp⟩
  | cons a rest ih =>
    refine ⟨?_, ?_, ?_⟩
    · cases a with
      | r2 c0 => simp [dispatchDirectives, (ih (r2i + 1) pyi 0).1]
      | python c0 => simp [dispatchDirectives, (ih r2i (pyi + 1) 0).1]
    · intro hk
      cases k with
      | zero =>
        rw [List.getElem?_cons_zero] at hk
        injection hk with hk
        subst hk
        simp [dispatchDirectives, countR2]
      | succ k2 =>
        rw [List.getElem?_cons_succ] at hk
        cases a with
        | r2 c0 =>
          have h2 := (ih (r2i + 1) pyi k2).2.1 hk
          have hidx : r2i + 1 + countR2 (rest.take k2)
              = r2i + countR2 ((Directive.r2 c0 :: rest).take (k2 + 1)) := by
            simp [countR2, List.countP_cons, List.take_succ_cons]
            omega
          simp only [dispatchDirectives, List.getElem?_cons_succ]
          rw [h2, hidx]
        | python c0 =>
          have h2 := (ih r2i (pyi + 1) k2).2.1 hk
          have hidx : r2i + countR2 (rest.take k2)
              = r2i + countR2 ((Directive.python c0 :: rest).take (k2 + 1)) := by
            simp [countR2, List.countP_cons, List.take_succ_cons]
          simp only [dispatchDirectives, List.getElem?_cons_succ]
          rw [h2, hidx]
    · intro hk
      cases k with
      | zero =>
        rw [List.getElem?_cons_zero] at hk
        injection hk with hk
        subst hk
        simp [dispatchDirectives, countPy]
      | succ k2 =>
        rw [List.getElem?_cons_succ] at hk
        cases a with
        | r2 c0 =>
          have h2 := (ih (r2i + 1) pyi k2).2.2 hk
          have hidx : pyi + countPy (rest.take k2)
              = pyi + countPy ((Directive.r2 c0 :: rest).take (k2 + 1)) := by
            simp [countPy, List.countP_cons, List.take_succ_cons]
          simp only [dispatchDirectives, List.getElem?_cons_succ]
          rw [h2, hidx]
        | python c0 =>
          have h2 := (ih r2i (pyi + 1) k2).2.2 hk
          have hidx : pyi + 1 + countPy (rest.take k2)
              = pyi + countPy ((Directive.python c0 :: rest).take (k2 + 1)) := by
            simp [countPy, List.countP_cons, List.take_succ_cons]
            omega
          simp only [dispatchDirectives, List.getElem?_cons_succ]
          rw [h2, hidx]

/-- Witness for `c4_blocks` at one r2 directive and one python directive. -/
theorem c4_witness :
    (((dispatchDirectives (fun _ _ => Except.ok "o".toList)
          (fun _ => PyRes.ok "q".toList) [Directive.r2 "c".toList] 0 0).1)[0]?
        = some (formatR2Block "c".toList
            (run_r2_command ((fun _ _ => Except.ok "o".toList)
              (0 + countR2 ([Directive.r2 "c".toList].take 0))) "c".toList)))
      ∧ (((dispatchDirectives (fun _ _ => Except.ok "o".toList)
            (fun _ => PyRes.ok "q".toList) [Directive.python "p".toList] 0 0).1)[0]?
        = some (formatPyBlock
            (run_python_code ((fun _ => PyRes.ok "q".toList)
              (0 + countPy ([Directive.python "p".toList].take 0)))))) :=
  ⟨(c4_blocks (fun _ _ => Except.ok "o".toList) (fun _ => PyRes.ok "q".toList)
      [Directive.r2 "c".toList] 0 0 0 "c".toList).2.1 rfl,
   (c4_blocks (fun _ _ => Except.ok "o".toList) (fun _ => PyRes.ok "q".toList)
      [Directive.python "p".toList] 0 0 0 "p".toList).2.2 rfl⟩

/-- Claim C6: a failed attempt with attempts remaining moves to the next
attempt from the updated state; after exactly `maxRetries = 3` consecutive
transport failures the loop surfaces the fatal exhausted condition
(`none`), having issued exactly three calls; and the outcome depends only
on the three consulted environment slots — no fourth attempt is ever
started. -/
theorem c6_retry_bound (env : Nat → CallOutcome) (turn : Nat) (st : PhaseSt)
    (badMsg : Str) (hbad : fallbackTrigger badMsg = false)
    (h0 : env st.cnt = CallOutcome.createErr badMsg)
    (h1 : env (st.cnt + 1) = CallOutcome.createErr badMsg)
    (h2 : env (st.cnt + 2) = CallOutcome.createErr badMsg) :
    (attemptsLoop env turn maxRetries st).2 = none
      ∧ (attemptsLoop env turn maxRetries st).1.cnt = st.cnt + 3
      ∧ (attemptsLoop env turn maxRetries st).1.trace
        = st.trace ++ [⟨turn, st.thinkOn⟩, ⟨turn, st.thinkOn⟩, ⟨turn, st.thinkOn⟩]
      ∧ (∀ env2 : Nat → CallOutcome,
          env2 st.cnt = env st.cnt → env2 (st.cnt + 1) = env (st.cnt + 1) →
          env2 (st.cnt + 2) = env (st.cnt + 2) →
          attemptsLoop env2 turn maxRetries st = attemptsLoop env turn maxRetries st)
      ∧ (∀ (st2 : PhaseSt) (f : Nat),
          (runAttempt env turn st2).2 = AttemptRes.failed →
          attemptsLoop env turn (f + 2) st2
            = attemptsLoop env turn (f + 1) (runAttempt env turn st2).1) := by
  have hA : ∀ (e : Nat → CallOutcome) (s : PhaseSt),
      e s.cnt = CallOutcome.createErr badMsg →
      runAttempt e turn s
        = ({ s with cnt := s.cnt + 1, trace := s.trace ++ [⟨turn, s.thinkOn⟩] },
           AttemptRes.failed) := by
    intro e s hs
    simp [runAttempt, hs, hbad]
  have step : ∀ (e : Nat → CallOutcome) (s : PhaseSt) (f : Nat),
      e s.cnt = CallOutcome.createErr badMsg →
      attemptsLoop e turn (f + 1) s
        = match f with
          | 0 =>
            (({ s with
                cnt := s.cnt + 1,
                trace := s.trace ++ [⟨turn, s.thinkOn⟩] } : PhaseSt), none)
          | g + 1 =>
            attemptsLoop e turn (g + 1)
              { s with
                cnt := s.cnt + 1,
                trace := s.trace ++ [⟨turn, s.thinkOn⟩] } := by
    intro e s f hs
    rw [show (f + 1) = Nat.succ f from rfl, attemptsLoop.eq_2, hA e s hs]
  have full : ∀ e : Nat → CallOutcome,
      e st.cnt = CallOutcome.createErr badMsg →
      e (st.cnt + 1) = CallOutcome.createErr badMsg →
      e (st.cnt + 2) = CallOutcome.createErr badMsg →
      attemptsLoop e turn maxRetries st
        = ({ st with
             cnt := st.cnt + 1 + 1 + 1,
             trace := ((st.trace ++ [⟨turn, st.thinkOn⟩]) ++ [⟨turn, st.thinkOn⟩])
               ++ [⟨turn, st.thinkOn⟩] }, none) := by
    intro e he0 he1 he2
    have k1 : attemptsLoop e turn (2 + 1) st
        = attemptsLoop e turn (1 + 1)
            { st with
              cnt := st.cnt + 1,
              trace := st.trace ++ [⟨turn, st.thinkOn⟩] } := step e st 2 he0
    have k2 : attemptsLoop e turn (1 + 1)
          { st with
            cnt := st.cnt + 1,
            trace := st.trace ++ [⟨turn, st.thinkOn⟩] }
        = attemptsLoop e turn (0 + 1)
            { st with
              cnt := st.cnt + 1 + 1,
              trace := (st.trace ++ [⟨turn, st.thinkOn⟩]) ++ [⟨turn, st.thinkOn⟩] } :=
      step e _ 1 (by simpa using he1)
    have k3 : attemptsLoop e turn (0 + 1)
          { st with
            cnt := st.cnt + 1 + 1,
            trace := (st.trace ++ [⟨turn, st.thinkOn⟩]) ++ [⟨turn, st.thinkOn⟩] }
        = ({ st with
             cnt := st.cnt + 1 + 1 + 1,
             trace := ((st.trace ++ [⟨turn, st.thinkOn⟩]) ++ [⟨turn, st.thinkOn⟩])
               ++ [⟨turn, st.thinkOn⟩] }, none) :=
      step e _ 0 (by simpa using he2)
    show attemptsLoop e turn (2 + 1) st = _
    rw [k1, k2, k3]
  refine ⟨?_, ?_, ?_, ?_, ?_⟩
  · rw [full env h0 h1 h2]
  · rw [full env h0 h1 h2]
  · rw [full env h0 h1 h2]
    simp
  · intro env2 hg0 hg1 hg2
    rw [full env h0 h1 h2, full env2 (hg0.trans h0) (hg1.trans h1) (hg2.trans h2)]
  · intro st2 f hf
    rcases hr : runAttempt env turn st2 with ⟨s2, res⟩
    rw [hr] at hf
    cases res with
    | ok c => simp at hf
    | failed =>
      rw [show (f + 2) = Nat.succ (f + 1) from rfl, attemptsLoop.eq_2, hr]

/-- Witness for `c6_retry_bound` at a concrete always-failing environment. -/
theorem c6_witness :
    (attemptsLoop (fun _ => CallOutcome.createErr "boom".toList) 0 maxRetries
        ⟨0, [], true, false⟩).2 = none
      ∧ (attemptsLoop (fun _ => CallOutcome.createErr "boom".toList) 0 maxRetries
          ⟨0, [], true, false⟩).1.trace
        = [] ++ [⟨0, true⟩, ⟨0, true⟩, ⟨0, true⟩]
      ∧ attemptsLoop (fun _ => CallOutcome.createErr "boom".toList) 0 (0 + 2)
          ⟨0, [], true, false⟩
        = attemptsLoop (fun _ => CallOutcome.createErr "boom".toList) 0 (0 + 1)
            (runAttempt (fun _ => CallOutcome.createErr "boom".toList) 0
              ⟨0, [], true, false⟩).1 := by
  have h := c6_retry_bound (fun _ => CallOutcome.createErr "boom".toList) 0
    ⟨0, [], true, false⟩ "boom".toList (by decide) rfl rfl rfl
  exact ⟨h.1, h.2.2.1, h.2.2.2.2 ⟨0, [], true, false⟩ 0 (by decide)⟩

/-- Every attempt records at least its own `create` call, issued with the
current state of the thinking parameter. -/
theorem runAttempt_trace (env : Nat → CallOutcome) (turn : Nat) (st : PhaseSt) :
    ∃ ext, (runAttempt env turn st).1.trace
      = st.trace ++ (CallRec.mk turn st.thinkOn :: ext) := by
  cases h : env st.cnt with
  | streamOk chunks => exact ⟨[], by simp [runAttempt, h]⟩
  | streamErr pre =>
    refine ⟨[], ?_⟩
    simp only [runAttempt, h]
    split <;> simp
  | createErr m =>
    by_cases hf : fallbackTrigger m
    · cases h2 : env (st.cnt + 1) with
      | streamOk chunks => exact ⟨[⟨turn, false⟩], by simp [runAttempt, h, hf, h2]⟩
      | streamErr pre =>
        refine ⟨[⟨turn, false⟩], ?_⟩
        simp only [runAttempt, h, hf, if_true, h2]
        split <;> simp
      | createErr m2 => exact ⟨[⟨turn, false⟩], by simp [runAttempt, h, hf, h2]⟩
    · exact ⟨[], by simp [runAttempt, h, hf]⟩

/-- The retry loop only ever appends to the call trace. -/
theorem attemptsLoop_trace_ext (env : Nat → CallOutcome) (turn : Nat) :
    ∀ fuel (st : PhaseSt),
      ∃ ext, (attemptsLoop env turn fuel st).1.trace = st.trace ++ ext := by
  intro fuel
  induction fuel with
  | zero => intro st; exact ⟨[], by simp [attemptsLoop]⟩
  | succ f ih =>
    intro st
    rw [show f + 1 = Nat.succ f from rfl, attemptsLoop.eq_2]
    rcases hr : runAttempt env turn st with ⟨st', res⟩
    obtain ⟨ext, hext⟩ := runAttempt_trace env turn st
    rw [hr] at hext
    cases res with
    | ok c => exact ⟨_, hext⟩
    | failed =>
      cases f with
      | zero => exact ⟨_, hext⟩
      | succ g =>
        obtain ⟨ext2, hext2⟩ := ih st'
        refine ⟨CallRec.mk turn st.thinkOn :: ext ++ ext2, ?_⟩
        rw [hext2, hext]
        simp

/-- With at least one attempt of fuel, the first call recorded by the retry
loop beyond the incoming trace is issued with the incoming state of the
thinking parameter. -/
theorem attemptsLoop_trace_head (env : Nat → CallOutcome) (turn : Nat)
    (f : Nat) (st : PhaseSt) :
    ∃ ext, (attemptsLoop env turn (f + 1) st).1.trace
      = st.trace ++ (CallRec.mk turn st.thinkOn :: ext) := by
  rw [show f + 1 = Nat.succ f from rfl, attemptsLoop.eq_2]
  rcases hr : runAttempt env turn st with ⟨st', res⟩
  obtain ⟨ext, hext⟩ := runAttempt_trace env turn st
  rw [hr] at hext
  cases res with
  | ok c => exact ⟨_, hext⟩
  | failed =>
    cases f with
    | zero => exact ⟨_, hext⟩
    | succ g =>
      obtain ⟨ext2, hext2⟩ := attemptsLoop_trace_ext env turn (g + 1) st'
      refine ⟨ext ++ ext2, ?_⟩
      rw [hext2, hext]
      simp

/-- The user prompt does not touch the call trace. -/
theorem promptBranch_trace (env : Env) (st : LoopSt) :
    (stepOutSt (promptBranch env st)).trace = st.trace := by
  simp only [promptBranch]
  split <;> simp [stepOutSt]

/-- After one loop iteration the call trace is whatever the retry phase of
that turn produced. -/
theorem chatStep_trace (env : Env) (st : LoopSt) :
    (stepOutSt (chatStep env st)).trace
      = (attemptsLoop env.call st.turnNo maxRetries
          ⟨st.cnt, st.trace, true, false⟩).1.trace := by
  rcases hp : attemptsLoop env.call st.turnNo maxRetries
    ⟨st.cnt, st.trace, true, false⟩ with ⟨pst, r⟩
  cases r with
  | none => simp [chatStep, hp, stepOutSt]
  | some content =>
    simp only [chatStep, hp]
    split
    · split
      · simp [stepOutSt]
      · simp [promptBranch_trace]
    · simp [promptBranch_trace]

/-- Claim C1 (amended): when `create` fails with a message matching the
unsupported-parameter test, the same attempt retries exactly once more with
the thinking parameter removed, and the parameter stays removed for the
remaining attempts of that same remote call (`thinkOn = false`); but the
disabling does not outlive the call — every iteration of the conversation
loop rebuilds `req_kwargs` with the parameter enabled, so the first remote
call of every turn carries the parameter again. -/
theorem c1_fallback_scoped (env : Nat → CallOutcome) (turn : Nat) (st : PhaseSt)
    (m : Str) (hm : env st.cnt = CallOutcome.createErr m)
    (ht : fallbackTrigger m = true) :
    ((runAttempt env turn st).1.trace
        = st.trace ++ [⟨turn, st.thinkOn⟩, ⟨turn, false⟩]
      ∧ (runAttempt env turn st).1.thinkOn = false)
      ∧ (∀ (env2 : Env) (st2 : LoopSt),
          (((stepOutSt (chatStep env2 st2)).trace).drop st2.trace.length).head?
            = some ⟨st2.turnNo, true⟩) := by
  refine ⟨⟨?_, ?_⟩, ?_⟩
  · cases h2 : env (st.cnt + 1) with
    | streamOk chunks => simp [runAttempt, hm, ht, h2]
    | createErr m2 => simp [runAttempt, hm, ht, h2]
    | streamErr pre =>
      simp only [runAttempt, hm, ht, if_true, h2]
      split <;> simp
  · cases h2 : env (st.cnt + 1) with
    | streamOk chunks => simp [runAttempt, hm, ht, h2]
    | createErr m2 => simp [runAttempt, hm, ht, h2]
    | streamErr pre =>
      simp only [runAttempt, hm, ht, if_true, h2]
      split <;> simp
  · intro env2 st2
    rw [chatStep_trace, show maxRetries = 2 + 1 from rfl]
    obtain ⟨ext, hext⟩ := attemptsLoop_trace_head env2.call st2.turnNo 2
      ⟨st2.cnt, st2.trace, true, false⟩
    rw [hext]
    show (List.drop st2.trace.length (st2.trace ++ _)).head? = _
    rw [List.drop_left]
    rfl

/-- Claim C1 counterexample: in this concrete run the turn-0 request is
rejected over its thinking parameter and retried without it (the trace
records a turn-0 call with `thinking = false`), the turn succeeds and the
loop continues — and the first remote call of turn 1 carries the thinking
parameter again, so the parameter did not stay disabled for the remainder
of the process. -/
theorem c1_counterexample :
    (chat_loop c1CexEnv 2 (initState "t".toList "p".toList)).trace
      = [⟨0, true⟩, ⟨0, false⟩, ⟨1, true⟩]
      ∧ CallRec.mk 0 false
        ∈ (chat_loop c1CexEnv 2 (initState "t".toList "p".toList)).trace
      ∧ CallRec.mk 1 true
        ∈ (chat_loop c1CexEnv 2 (initState "t".toList "p".toList)).trace := by
  decide

/-- Witness for `c1_fallback_scoped` at a concrete rejected request. -/
theorem c1_witness :
    (runAttempt (fun _ => CallOutcome.createErr "no thinking".toList) 5
        ⟨0, [], true, false⟩).1.trace = [] ++ [⟨5, true⟩, ⟨5, false⟩]
      ∧ (runAttempt (fun _ => CallOutcome.createErr "no thinking".toList) 5
          ⟨0, [], true, false⟩).1.thinkOn = false :=
  (c1_fallback_scoped (fun _ => CallOutcome.createErr "no thinking".toList) 5
    ⟨0, [], true, false⟩ "no thinking".toList rfl (by decide)).1

/-- The user prompt never removes or edits history Turns: it at most
appends the typed line as one user Turn. -/
theorem promptBranch_hist (env : Env) (st : LoopSt) :
    st.history <+: (stepOutSt (promptBranch env st)).history := by
  simp only [promptBranch]
  split
  · exact List.prefix_rfl
  · exact List.prefix_append _ _

/-- One loop iteration never removes or edits history Turns: the incoming
history is a prefix of the outgoing one. -/
theorem chatStep_hist (env : Env) (st : LoopSt) :
    st.history <+: (stepOutSt (chatStep env st)).history := by
  rcases hp : attemptsLoop env.call st.turnNo maxRetries
    ⟨st.cnt, st.trace, true, false⟩ with ⟨pst, r⟩
  cases r with
  | none => simp [chatStep, hp, stepOutSt]
  | some content =>
    simp only [chatStep, hp]
    split
    · split
      · exact (List.prefix_append _ _).trans (List.prefix_append _ _)
      · refine List.IsPrefix.trans ?_ (promptBranch_hist env _)
        exact (List.prefix_append _ _).trans (List.prefix_append _ _)
    · refine List.IsPrefix.trans ?_ (promptBranch_hist env _)
      exact List.prefix_append _ _

/-- Claim C9: History is append-only — every mutation a loop iteration
performs on it is an append of new Turns — and from the seeded initial
history, after any number of iterations the two seed Turns are still a
prefix and the first Turn is still the fixed system-instruction Turn,
never removed or modified. -/
theorem c9_append_only (env : Env) (n : Nat) (tf p : Str) :
    (∀ st : LoopSt, st.history <+: (stepOutSt (chatStep env st)).history)
      ∧ initHistory tf p <+: (chat_loop env n (initState tf p)).history
      ∧ (chat_loop env n (initState tf p)).history.head?
        = some ⟨"system".toList, sysPromptText⟩ := by
  have hloop : ∀ (k : Nat) (st : LoopSt),
      st.history <+: (chat_loop env k st).history := by
    intro k
    induction k with
    | zero => intro st; exact List.prefix_rfl
    | succ k2 ih =>
      intro st
      rw [show k2 + 1 = Nat.succ k2 from rfl, chat_loop.eq_2]
      rcases hs : chatStep env st with st' | st' | st'
      · have h2 := chatStep_hist env st
        rw [hs] at h2
        exact List.IsPrefix.trans h2 (ih st')
      · have h2 := chatStep_hist env st
        rw [hs] at h2
        exact h2
      · have h2 := chatStep_hist env st
        rw [hs] at h2
        exact h2
  refine ⟨chatStep_hist env, ?_, ?_⟩
  · have h := hloop n (initState tf p)
    simpa [initState] using h
  · obtain ⟨t, ht⟩ := hloop n (initState tf p)
    rw [← ht]
    simp [initState, initHistory]
